import Mathlib

/-
Verification development for the CircuitBreaker component
(src/Backend/DesignPattern/CircuitBreaker.cpp).

The C++ class is embedded shallowly: machine integers (C++ int) become Int,
time points (std::chrono::system_clock::time_point, compared after a
duration_cast to seconds) become Int second counts, and the wrapped
operation becomes an explicit outcome value (the operation either returns a
string or throws, which the breaker catches).  Each member function of the
class becomes a pure function on the breaker record; execute additionally
reports the produced result and how many times the operation was invoked.
-/

/- Enum of the three breaker states, in source declaration order (the
ordinals 0, 1, 2 are observable through getMetrics). -/
inductive CircuitState
  | CLOSED
  | OPEN
  | HALF_OPEN
deriving DecidableEq, Repr

/- The fields of class CircuitBreaker.  The mutex is a concurrency artifact
with no sequential content and is not modelled as data. -/
structure CircuitBreaker where
  failureThreshold : Int
  retryTime : Int
  successThreshold : Int
  failureCount : Int
  successCount : Int
  state : CircuitState
  lastFailureTime : Int
deriving DecidableEq, Repr

/- The constructor.  It stores the three parameters unchanged, zeroes both
counters, starts CLOSED and stamps lastFailureTime with the current time;
it performs no validation of the parameters. -/
def mkCircuitBreaker (failureThreshold retryTime successThreshold now : Int) :
    CircuitBreaker :=
  { failureThreshold := failureThreshold
    retryTime := retryTime
    successThreshold := successThreshold
    failureCount := 0
    successCount := 0
    state := CircuitState.CLOSED
    lastFailureTime := now }

/- The fixed fallback string returned by CircuitBreaker::fallback. -/
def fallback : String := "Service is unavailable. Returning fallback response."

/- Outcome of one invocation of the wrapped operation: a returned string or
a thrown exception. -/
inductive Outcome
  | success (v : String)
  | failure
deriving DecidableEq, Repr

/- CircuitBreaker::onFailure: increment failureCount and, once it reaches
failureThreshold, go OPEN and stamp lastFailureTime. -/
def CircuitBreaker.onFailure (b : CircuitBreaker) (now : Int) : CircuitBreaker :=
  let b1 := { b with failureCount := b.failureCount + 1 }
  if b1.failureThreshold ≤ b1.failureCount then
    { b1 with state := CircuitState.OPEN, lastFailureTime := now }
  else
    b1

/- CircuitBreaker::reset: back to CLOSED with both counters zeroed. -/
def CircuitBreaker.reset (b : CircuitBreaker) : CircuitBreaker :=
  { b with state := CircuitState.CLOSED, failureCount := 0, successCount := 0 }

/- CircuitBreaker::onSuccess: in HALF_OPEN count the success and reset once
successThreshold is reached; in any other state zero failureCount. -/
def CircuitBreaker.onSuccess (b : CircuitBreaker) : CircuitBreaker :=
  if b.state = CircuitState.HALF_OPEN then
    let b1 := { b with successCount := b.successCount + 1 }
    if b1.successThreshold ≤ b1.successCount then b1.reset else b1
  else
    { b with failureCount := 0 }

/- The opening block of CircuitBreaker::execute: when OPEN, either move to
HALF_OPEN (cooldown elapsed) or refuse the call.  The boolean reports
whether execution proceeds to invoke the operation. -/
def CircuitBreaker.checkState (b : CircuitBreaker) (now : Int) :
    CircuitBreaker × Bool :=
  if b.state = CircuitState.OPEN then
    if b.retryTime ≤ now - b.lastFailureTime then
      ({ b with state := CircuitState.HALF_OPEN }, true)
    else
      (b, false)
  else
    (b, true)

/- What one call to CircuitBreaker::execute produces: the returned string,
the breaker afterwards, and how many times the operation was invoked. -/
structure ExecResult where
  result : String
  breaker : CircuitBreaker
  opCalls : Nat
deriving DecidableEq, Repr

/- CircuitBreaker::execute, with the outcome the operation would produce
passed in explicitly.  The catch block of the source maps to the failure
branch: onFailure runs and the fallback string is returned. -/
def CircuitBreaker.execute (b : CircuitBreaker) (now : Int) (op : Outcome) :
    ExecResult :=
  let checked := b.checkState now
  if checked.2 then
    match op with
    | Outcome.success v =>
        { result := v, breaker := checked.1.onSuccess, opCalls := 1 }
    | Outcome.failure =>
        { result := fallback, breaker := checked.1.onFailure now, opCalls := 1 }
  else
    { result := fallback, breaker := checked.1, opCalls := 0 }

/- The ordinal getMetrics stores for each state (static_cast to int of the
enum value). -/
def stateOrdinal : CircuitState → Int
  | CircuitState.CLOSED => 0
  | CircuitState.OPEN => 1
  | CircuitState.HALF_OPEN => 2

/- CircuitBreaker::getMetrics: the (unchanged) breaker together with the
key lookup of the returned std::map. -/
def CircuitBreaker.getMetrics (b : CircuitBreaker) :
    CircuitBreaker × (String → Option Int) :=
  (b, fun k =>
    if k = "failureCount" then some b.failureCount
    else if k = "successCount" then some b.successCount
    else if k = "currentState" then some (stateOrdinal b.state)
    else none)

/- Run a list of execute calls, each with its own clock reading and
operation outcome, threading the breaker through. -/
def runCalls (b : CircuitBreaker) (calls : List (Int × Outcome)) : CircuitBreaker :=
  calls.foldl (fun acc c => (acc.execute c.1 c.2).breaker) b

/- Run a list of outcomes with every call at clock reading 0 (a burst that
fits inside any positive cooldown window). -/
def runAt0 (b : CircuitBreaker) (os : List Outcome) : CircuitBreaker :=
  os.foldl (fun acc o => (acc.execute 0 o).breaker) b

/- The outcome list begins with k consecutive failures. -/
def startsWithFails (k : Nat) (os : List Outcome) : Prop :=
  ∃ rest, os = List.replicate k Outcome.failure ++ rest

/- Somewhere in the outcome list, t consecutive failures occur with no
intervening success. -/
def hasConsecFails (t : Nat) (os : List Outcome) : Prop :=
  ∃ pre rest, os = pre ++ List.replicate t Outcome.failure ++ rest

/- Invariant: whenever the breaker is OPEN or HALF_OPEN, failureCount has
already reached failureThreshold. -/
def TrippedInv (b : CircuitBreaker) : Prop :=
  b.state = CircuitState.OPEN ∨ b.state = CircuitState.HALF_OPEN →
    b.failureThreshold ≤ b.failureCount

/- Breakers reachable from a constructor call through execute calls. -/
inductive Reachable : CircuitBreaker → Prop
  | init (f r s now : Int) : Reachable (mkCircuitBreaker f r s now)
  | step (b : CircuitBreaker) (now : Int) (op : Outcome) :
      Reachable b → Reachable ((b.execute now op).breaker)

/- A concrete trace with failureThreshold 1, retryTime 1, successThreshold 2,
following the demo driver shape: fail, cool down, trial success. -/
def cbDemo0 : CircuitBreaker := mkCircuitBreaker 1 1 2 0

/- After one failure at time 0: OPEN, failureCount 1, lastFailureTime 0. -/
def cbDemo1 : CircuitBreaker := (cbDemo0.execute 0 Outcome.failure).breaker

/- After a trial success at time 1: HALF_OPEN with successCount 1. -/
def cbDemo2 : CircuitBreaker := (cbDemo1.execute 1 (Outcome.success "ok")).breaker

/- After a trial failure at time 1: OPEN again, successCount still 1. -/
def cbDemo3 : CircuitBreaker := (cbDemo2.execute 1 Outcome.failure).breaker

/- A half open breaker with a fresh success counter, thresholds (3, 5, 2). -/
def cbHalfFresh : CircuitBreaker :=
  { failureThreshold := 3, retryTime := 5, successThreshold := 2,
    failureCount := 3, successCount := 0,
    state := CircuitState.HALF_OPEN, lastFailureTime := 0 }

theorem cbDemo2_state : cbDemo2.state = CircuitState.HALF_OPEN := by decide

theorem cbDemo2_reachable : Reachable cbDemo2 :=
  Reachable.step _ _ _ (Reachable.step _ _ _ (Reachable.init 1 1 2 0))

/- Step lemmas: the value of one execute call in each case of the source
control flow. -/

theorem execute_closed_success (b : CircuitBreaker) (now : Int) (v : String)
    (hb : b.state = CircuitState.CLOSED) :
    b.execute now (Outcome.success v) =
      { result := v, breaker := { b with failureCount := 0 }, opCalls := 1 } := by
  simp [CircuitBreaker.execute, CircuitBreaker.checkState,
    CircuitBreaker.onSuccess, hb]

theorem execute_closed_failure_trip (b : CircuitBreaker) (now : Int)
    (hb : b.state = CircuitState.CLOSED)
    (ht : b.failureThreshold ≤ b.failureCount + 1) :
    b.execute now Outcome.failure =
      { result := fallback
        breaker := { b with failureCount := b.failureCount + 1,
                            state := CircuitState.OPEN, lastFailureTime := now }
        opCalls := 1 } := by
  simp [CircuitBreaker.execute, CircuitBreaker.checkState,
    CircuitBreaker.onFailure, hb, ht]

theorem execute_closed_failure_stay (b : CircuitBreaker) (now : Int)
    (hb : b.state = CircuitState.CLOSED)
    (ht : ¬ b.failureThreshold ≤ b.failureCount + 1) :
    b.execute now Outcome.failure =
      { result := fallback
        breaker := { b with failureCount := b.failureCount + 1 }
        opCalls := 1 } := by
  simp [CircuitBreaker.execute, CircuitBreaker.checkState,
    CircuitBreaker.onFailure, hb, ht]

theorem execute_open_shortcircuit (b : CircuitBreaker) (now : Int) (op : Outcome)
    (hb : b.state = CircuitState.OPEN)
    (hc : now - b.lastFailureTime < b.retryTime) :
    b.execute now op = { result := fallback, breaker := b, opCalls := 0 } := by
  simp [CircuitBreaker.execute, CircuitBreaker.checkState, hb, not_le.mpr hc]

theorem execute_open_retry (b : CircuitBreaker) (now : Int) (op : Outcome)
    (hb : b.state = CircuitState.OPEN)
    (hc : b.retryTime ≤ now - b.lastFailureTime) :
    b.execute now op =
      CircuitBreaker.execute { b with state := CircuitState.HALF_OPEN } now op := by
  simp [CircuitBreaker.execute, CircuitBreaker.checkState, hb, hc]

theorem execute_halfopen_success_close (b : CircuitBreaker) (now : Int) (v : String)
    (hb : b.state = CircuitState.HALF_OPEN)
    (ht : b.successThreshold ≤ b.successCount + 1) :
    b.execute now (Outcome.success v) =
      { result := v
        breaker := { b with state := CircuitState.CLOSED,
                            failureCount := 0, successCount := 0 }
        opCalls := 1 } := by
  simp [CircuitBreaker.execute, CircuitBreaker.checkState,
    CircuitBreaker.onSuccess, CircuitBreaker.reset, hb, ht]

theorem execute_halfopen_success_stay (b : CircuitBreaker) (now : Int) (v : String)
    (hb : b.state = CircuitState.HALF_OPEN)
    (ht : ¬ b.successThreshold ≤ b.successCount + 1) :
    b.execute now (Outcome.success v) =
      { result := v
        breaker := { b with successCount := b.successCount + 1 }
        opCalls := 1 } := by
  simp [CircuitBreaker.execute, CircuitBreaker.checkState,
    CircuitBreaker.onSuccess, hb, ht]

theorem execute_halfopen_failure_trip (b : CircuitBreaker) (now : Int)
    (hb : b.state = CircuitState.HALF_OPEN)
    (ht : b.failureThreshold ≤ b.failureCount + 1) :
    b.execute now Outcome.failure =
      { result := fallback
        breaker := { b with failureCount := b.failureCount + 1,
                            state := CircuitState.OPEN, lastFailureTime := now }
        opCalls := 1 } := by
  simp [CircuitBreaker.execute, CircuitBreaker.checkState,
    CircuitBreaker.onFailure, hb, ht]

theorem execute_halfopen_failure_stay (b : CircuitBreaker) (now : Int)
    (hb : b.state = CircuitState.HALF_OPEN)
    (ht : ¬ b.failureThreshold ≤ b.failureCount + 1) :
    b.execute now Outcome.failure =
      { result := fallback
        breaker := { b with failureCount := b.failureCount + 1 }
        opCalls := 1 } := by
  simp [CircuitBreaker.execute, CircuitBreaker.checkState,
    CircuitBreaker.onFailure, hb, ht]

/- One execute call out of a half open breaker whose failureCount has
reached the threshold preserves the tripped invariant. -/
theorem trippedInv_halfopen_step (b : CircuitBreaker) (now : Int) (op : Outcome)
    (hb : b.state = CircuitState.HALF_OPEN)
    (hf : b.failureThreshold ≤ b.failureCount) :
    TrippedInv ((b.execute now op).breaker) := by
  cases op with
  | success v =>
    by_cases ht : b.successThreshold ≤ b.successCount + 1
    · rw [execute_halfopen_success_close b now v hb ht]
      intro h1
      rcases h1 with h1 | h1 <;> simp at h1
    · rw [execute_halfopen_success_stay b now v hb ht]
      intro _
      exact hf
  | failure =>
    by_cases ht : b.failureThreshold ≤ b.failureCount + 1
    · rw [execute_halfopen_failure_trip b now hb ht]
      intro _
      show b.failureThreshold ≤ b.failureCount + 1
      omega
    · rw [execute_halfopen_failure_stay b now hb ht]
      intro _
      show b.failureThreshold ≤ b.failureCount + 1
      omega

/- One execute call preserves the tripped invariant. -/
theorem trippedInv_step (b : CircuitBreaker) (now : Int) (op : Outcome)
    (h : TrippedInv b) : TrippedInv ((b.execute now op).breaker) := by
  cases hstate : b.state with
  | CLOSED =>
    cases op with
    | success v =>
      rw [execute_closed_success b now v hstate]
      intro h1
      rcases h1 with h1 | h1 <;> simp [hstate] at h1
    | failure =>
      by_cases ht : b.failureThreshold ≤ b.failureCount + 1
      · rw [execute_closed_failure_trip b now hstate ht]
        intro _
        show b.failureThreshold ≤ b.failureCount + 1
        omega
      · rw [execute_closed_failure_stay b now hstate ht]
        intro h1
        rcases h1 with h1 | h1 <;> simp [hstate] at h1
  | OPEN =>
    by_cases hc : b.retryTime ≤ now - b.lastFailureTime
    · rw [execute_open_retry b now op hstate hc]
      exact trippedInv_halfopen_step _ now op rfl (h (Or.inl hstate))
    · rw [execute_open_shortcircuit b now op hstate (not_le.mp hc)]
      exact h
  | HALF_OPEN =>
    exact trippedInv_halfopen_step b now op hstate (h (Or.inr hstate))

/- Every reachable breaker satisfies the tripped invariant. -/
theorem reachable_trippedInv (b : CircuitBreaker) (h : Reachable b) :
    TrippedInv b := by
  induction h with
  | init f r s now =>
    intro h1
    rcases h1 with h1 | h1 <;> simp [mkCircuitBreaker] at h1
  | step b now op _ ih =>
    exact trippedInv_step b now op ih

/-- C2: while OPEN with elapsed time since the last failure strictly below
the cooldown, execute returns the fallback value, does not invoke the
operation, and leaves the breaker unchanged, in particular still OPEN. -/
theorem claim_C2 (b : CircuitBreaker) (now : Int) (op : Outcome)
    (hb : b.state = CircuitState.OPEN)
    (hc : now - b.lastFailureTime < b.retryTime) :
    b.execute now op = { result := fallback, breaker := b, opCalls := 0 } ∧
    (b.execute now op).breaker.state = CircuitState.OPEN ∧
    (b.execute now op).opCalls = 0 := by
  have h := execute_open_shortcircuit b now op hb hc
  exact ⟨h, by rw [h]; exact hb, by rw [h]⟩

theorem claim_C2_witness :
    cbDemo1.execute 0 (Outcome.success "ok") =
      { result := fallback, breaker := cbDemo1, opCalls := 0 } ∧
    (cbDemo1.execute 0 (Outcome.success "ok")).breaker.state =
      CircuitState.OPEN ∧
    (cbDemo1.execute 0 (Outcome.success "ok")).opCalls = 0 :=
  claim_C2 cbDemo1 0 (Outcome.success "ok") (by decide) (by decide)

/-- C3 amended: while OPEN with elapsed time at least the cooldown, the
state check moves the breaker to HALF_OPEN leaving successCount unchanged
(the source does not reset it), and execute invokes the operation exactly
once as a trial call. -/
theorem claim_C3_amended (b : CircuitBreaker) (now : Int) (op : Outcome)
    (hb : b.state = CircuitState.OPEN)
    (hc : b.retryTime ≤ now - b.lastFailureTime) :
    b.checkState now = ({ b with state := CircuitState.HALF_OPEN }, true) ∧
    (b.checkState now).1.successCount = b.successCount ∧
    (b.execute now op).opCalls = 1 := by
  have hcs : b.checkState now = ({ b with state := CircuitState.HALF_OPEN }, true) := by
    simp [CircuitBreaker.checkState, hb, hc]
  refine ⟨hcs, by rw [hcs], ?_⟩
  rw [execute_open_retry b now op hb hc]
  cases op <;> simp [CircuitBreaker.execute, CircuitBreaker.checkState]

theorem claim_C3_witness :
    cbDemo1.checkState 1 = ({ cbDemo1 with state := CircuitState.HALF_OPEN }, true) ∧
    (cbDemo1.checkState 1).1.successCount = cbDemo1.successCount ∧
    (cbDemo1.execute 1 (Outcome.success "ok")).opCalls = 1 :=
  claim_C3_amended cbDemo1 1 (Outcome.success "ok") (by decide) (by decide)

/-- C3 counterexample: after the trace fail, trial success, trial fail with
thresholds (1, 1, 2) the breaker is OPEN with successCount 1; the cooldown
has elapsed at time 2, and the OPEN to HALF_OPEN transition leaves
successCount at 1 rather than resetting it to 0, so the very next trial
success already closes the breaker. -/
theorem claim_C3_counterexample :
    cbDemo3.state = CircuitState.OPEN ∧
    cbDemo3.retryTime ≤ 2 - cbDemo3.lastFailureTime ∧
    (cbDemo3.checkState 2).1.state = CircuitState.HALF_OPEN ∧
    (cbDemo3.checkState 2).1.successCount = 1 ∧
    ¬ (cbDemo3.checkState 2).1.successCount = 0 ∧
    (cbDemo3.execute 2 (Outcome.success "ok")).breaker.state =
      CircuitState.CLOSED := by decide

/-- C4 amended: a failing trial call in a reachable HALF_OPEN breaker
immediately reopens the circuit and stamps lastFailureTime with the current
time; failureCount is incremented and successCount is left unchanged (the
source does not reset it). -/
theorem claim_C4_amended (b : CircuitBreaker) (now : Int) (h : Reachable b)
    (hb : b.state = CircuitState.HALF_OPEN) :
    b.execute now Outcome.failure =
      { result := fallback
        breaker := { b with failureCount := b.failureCount + 1,
                            state := CircuitState.OPEN, lastFailureTime := now }
        opCalls := 1 } ∧
    (b.execute now Outcome.failure).breaker.successCount = b.successCount := by
  have hf := reachable_trippedInv b h (Or.inr hb)
  have he := execute_halfopen_failure_trip b now hb (by omega)
  exact ⟨he, by rw [he]⟩

theorem claim_C4_witness :
    cbDemo2.execute 5 Outcome.failure =
      { result := fallback
        breaker := { cbDemo2 with failureCount := cbDemo2.failureCount + 1,
                                  state := CircuitState.OPEN, lastFailureTime := 5 }
        opCalls := 1 } ∧
    (cbDemo2.execute 5 Outcome.failure).breaker.successCount =
      cbDemo2.successCount :=
  claim_C4_amended cbDemo2 5 cbDemo2_reachable cbDemo2_state

/-- C4 counterexample: in the reachable HALF_OPEN breaker cbDemo2 with
successCount 1, a trial failure reopens the circuit but leaves successCount
at 1, contradicting the claimed reset to 0. -/
theorem claim_C4_counterexample :
    cbDemo2.state = CircuitState.HALF_OPEN ∧
    cbDemo2.successCount = 1 ∧
    (cbDemo2.execute 1 Outcome.failure).breaker.state = CircuitState.OPEN ∧
    (cbDemo2.execute 1 Outcome.failure).breaker.successCount = 1 ∧
    ¬ (cbDemo2.execute 1 Outcome.failure).breaker.successCount = 0 := by decide

/-- C6: the constructor performs no validation; called with a non-positive
failureThreshold it still produces a fully formed breaker, and that breaker
serves execute calls normally. -/
theorem claim_C6_no_validation :
    mkCircuitBreaker 0 5 2 0 =
      { failureThreshold := 0, retryTime := 5, successThreshold := 2,
        failureCount := 0, successCount := 0,
        state := CircuitState.CLOSED, lastFailureTime := 0 } ∧
    ((mkCircuitBreaker 0 5 2 0).execute 0 (Outcome.success "ok")).result =
      "ok" := by decide

/-- C7: execute always hands the caller either the value the operation
produced or the fixed fallback value; when the operation fails, the failure
is absorbed: the fallback is returned and, whenever the operation was
actually invoked, the resulting breaker is exactly the failure handler
applied after the state check. -/
theorem claim_C7 (b : CircuitBreaker) (now : Int) (op : Outcome) :
    ((∃ v, op = Outcome.success v ∧ (b.execute now op).result = v) ∨
      (b.execute now op).result = fallback) ∧
    (op = Outcome.failure →
      (b.execute now op).result = fallback ∧
      ((b.execute now op).opCalls = 1 →
        (b.execute now op).breaker = (b.checkState now).1.onFailure now)) := by
  by_cases hco : (b.checkState now).2 = true
  · cases op with
    | success v =>
      refine ⟨Or.inl ⟨v, rfl, ?_⟩, ?_⟩
      · simp [CircuitBreaker.execute, hco]
      · intro h
        simp at h
    | failure =>
      refine ⟨Or.inr ?_, fun _ => ⟨?_, fun _ => ?_⟩⟩
      all_goals simp [CircuitBreaker.execute, hco]
  · have hco2 : (b.checkState now).2 = false := by simpa using hco
    cases op with
    | success v =>
      refine ⟨Or.inr ?_, ?_⟩
      · simp [CircuitBreaker.execute, hco2]
      · intro h
        simp at h
    | failure =>
      refine ⟨Or.inr ?_, fun _ => ⟨?_, fun h1 => ?_⟩⟩
      · simp [CircuitBreaker.execute, hco2]
      · simp [CircuitBreaker.execute, hco2]
      · exfalso
        simp [CircuitBreaker.execute, hco2] at h1

theorem claim_C7_witness :
    ((cbDemo0.execute 0 Outcome.failure).result = fallback) ∧
    ((cbDemo0.execute 0 Outcome.failure).breaker =
      (cbDemo0.checkState 0).1.onFailure 0) :=
  ⟨((claim_C7 cbDemo0 0 Outcome.failure).2 rfl).1,
   ((claim_C7 cbDemo0 0 Outcome.failure).2 rfl).2 (by decide)⟩

/-- C8: getMetrics leaves every field of the breaker unchanged and returns
a snapshot map holding exactly the current failureCount, successCount and
state ordinal under the keys failureCount, successCount and currentState. -/
theorem claim_C8 (b : CircuitBreaker) :
    (b.getMetrics).1 = b ∧
    (b.getMetrics).2 "failureCount" = some b.failureCount ∧
    (b.getMetrics).2 "successCount" = some b.successCount ∧
    (b.getMetrics).2 "currentState" = some (stateOrdinal b.state) ∧
    ∀ k : String, k ≠ "failureCount" → k ≠ "successCount" →
      k ≠ "currentState" → (b.getMetrics).2 k = none := by
  refine ⟨rfl, ?_, ?_, ?_, ?_⟩
  · simp [CircuitBreaker.getMetrics]
  · simp [CircuitBreaker.getMetrics]
  · simp [CircuitBreaker.getMetrics]
  · intro k h1 h2 h3
    simp [CircuitBreaker.getMetrics, h1, h2, h3]

theorem claim_C8_witness :
    (cbDemo0.getMetrics).2 "other" = none :=
  (claim_C8 cbDemo0).2.2.2.2 "other" (by decide) (by decide) (by decide)

/-- C9: every reachable breaker that is OPEN or HALF_OPEN has failureCount
at least failureThreshold; none of the trip, retry or partial trial
transitions resets failureCount, and this is why a single failing trial
call in HALF_OPEN always reopens the circuit. -/
theorem claim_C9 (b : CircuitBreaker) (h : Reachable b) :
    ((b.state = CircuitState.OPEN ∨ b.state = CircuitState.HALF_OPEN) →
      b.failureThreshold ≤ b.failureCount) ∧
    (b.state = CircuitState.HALF_OPEN → ∀ now : Int,
      (b.execute now Outcome.failure).breaker.state = CircuitState.OPEN) := by
  have hinv := reachable_trippedInv b h
  refine ⟨hinv, fun hb now => ?_⟩
  have hf := hinv (Or.inr hb)
  rw [execute_halfopen_failure_trip b now hb (by omega)]

theorem claim_C9_witness :
    (cbDemo2.failureThreshold ≤ cbDemo2.failureCount) ∧
    ((cbDemo2.execute 1 Outcome.failure).breaker.state = CircuitState.OPEN) :=
  ⟨(claim_C9 cbDemo2 cbDemo2_reachable).1 (Or.inr cbDemo2_state),
   (claim_C9 cbDemo2 cbDemo2_reachable).2 cbDemo2_state 1⟩

/- Feeding only successes to a breaker that is either HALF_OPEN with enough
calls left to reach the success threshold, or already CLOSED with both
counters zeroed, ends CLOSED with both counters zeroed. -/
theorem run_successes_closes :
    ∀ (calls : List (Int × String)) (b : CircuitBreaker),
      ((b.state = CircuitState.HALF_OPEN ∧ 0 ≤ b.successCount ∧
          b.successThreshold ≤ b.successCount + (calls.length : Int) ∧
          1 ≤ calls.length) ∨
        (b.state = CircuitState.CLOSED ∧ b.failureCount = 0 ∧
          b.successCount = 0)) →
      (runCalls b (calls.map fun c => (c.1, Outcome.success c.2))).state =
          CircuitState.CLOSED ∧
      (runCalls b (calls.map fun c => (c.1, Outcome.success c.2))).failureCount = 0 ∧
      (runCalls b (calls.map fun c => (c.1, Outcome.success c.2))).successCount = 0 := by
  intro calls
  induction calls with
  | nil =>
    intro b h
    rcases h with ⟨_, _, _, hlen⟩ | ⟨h1, h2, h3⟩
    · simp at hlen
    · exact ⟨h1, h2, h3⟩
  | cons c rest ih =>
    intro b h
    have hstep : runCalls b ((c :: rest).map fun c => (c.1, Outcome.success c.2)) =
        runCalls ((b.execute c.1 (Outcome.success c.2)).breaker)
          (rest.map fun c => (c.1, Outcome.success c.2)) := rfl
    rw [hstep]
    rcases h with ⟨hs, hnn, hth, _⟩ | ⟨h1, h2, h3⟩
    · by_cases hclose : b.successThreshold ≤ b.successCount + 1
      · have hbr : (b.execute c.1 (Outcome.success c.2)).breaker =
            { b with state := CircuitState.CLOSED,
                     failureCount := 0, successCount := 0 } := by
          rw [execute_halfopen_success_close b c.1 c.2 hs hclose]
        rw [hbr]
        exact ih _ (Or.inr ⟨rfl, rfl, rfl⟩)
      · have hbr : (b.execute c.1 (Outcome.success c.2)).breaker =
            { b with successCount := b.successCount + 1 } := by
          rw [execute_halfopen_success_stay b c.1 c.2 hs hclose]
        rw [hbr]
        refine ih _ (Or.inl ⟨hs, ?_, ?_, ?_⟩)
        · show (0 : Int) ≤ b.successCount + 1
          omega
        · show b.successThreshold ≤ b.successCount + 1 + (rest.length : Int)
          simp only [List.length_cons] at hth
          push_cast at hth
          omega
        · simp only [List.length_cons] at hth
          push_cast at hth
          omega
    · have hbr : (b.execute c.1 (Outcome.success c.2)).breaker =
          { b with failureCount := 0 } := by
        rw [execute_closed_success b c.1 c.2 h1]
      rw [hbr]
      exact ih _ (Or.inr ⟨h1, rfl, h3⟩)

/-- C5: from a HALF_OPEN breaker with a non-negative success counter and a
positive success threshold, successThreshold consecutive successful execute
calls end with the breaker CLOSED and both counters zero, while a single
success that does not yet reach the threshold leaves the breaker HALF_OPEN
with successCount incremented. -/
theorem claim_C5 (b : CircuitBreaker)
    (hb : b.state = CircuitState.HALF_OPEN)
    (hnn : 0 ≤ b.successCount)
    (hpos : 0 < b.successThreshold) :
    (∀ calls : List (Int × String),
      (calls.length : Int) = b.successThreshold →
      (runCalls b (calls.map fun c => (c.1, Outcome.success c.2))).state =
          CircuitState.CLOSED ∧
      (runCalls b (calls.map fun c => (c.1, Outcome.success c.2))).failureCount = 0 ∧
      (runCalls b (calls.map fun c => (c.1, Outcome.success c.2))).successCount = 0) ∧
    (∀ (now : Int) (v : String), b.successCount + 1 < b.successThreshold →
      (b.execute now (Outcome.success v)).breaker.state = CircuitState.HALF_OPEN ∧
      (b.execute now (Outcome.success v)).breaker.successCount =
        b.successCount + 1) := by
  constructor
  · intro calls hlen
    refine run_successes_closes calls b (Or.inl ⟨hb, hnn, by omega, by omega⟩)
  · intro now v hlt
    have he := execute_halfopen_success_stay b now v hb (by omega)
    have hbr : (b.execute now (Outcome.success v)).breaker =
        { b with successCount := b.successCount + 1 } := by rw [he]
    rw [hbr]
    exact ⟨hb, rfl⟩

theorem claim_C5_witness :
    ((runCalls cbDemo2
        ([((2 : Int), "a"), ((3 : Int), "b")].map fun c =>
          (c.1, Outcome.success c.2))).state = CircuitState.CLOSED ∧
      (runCalls cbDemo2
        ([((2 : Int), "a"), ((3 : Int), "b")].map fun c =>
          (c.1, Outcome.success c.2))).failureCount = 0 ∧
      (runCalls cbDemo2
        ([((2 : Int), "a"), ((3 : Int), "b")].map fun c =>
          (c.1, Outcome.success c.2))).successCount = 0) ∧
    ((cbHalfFresh.execute 0 (Outcome.success "ok")).breaker.state =
        CircuitState.HALF_OPEN ∧
      (cbHalfFresh.execute 0 (Outcome.success "ok")).breaker.successCount =
        cbHalfFresh.successCount + 1) :=
  ⟨(claim_C5 cbDemo2 cbDemo2_state (by decide) (by decide)).1
      [((2 : Int), "a"), ((3 : Int), "b")] (by decide),
   (claim_C5 cbHalfFresh rfl (by decide) (by decide)).2 0 "ok" (by decide)⟩

/- Combinatorial lemmas on the two outcome list predicates. -/

theorem swf_zero (os : List Outcome) : startsWithFails 0 os := ⟨os, rfl⟩

theorem swf_succ_nil (k : Nat) : ¬ startsWithFails (k + 1) [] := by
  rintro ⟨rest, h⟩
  rw [List.replicate_succ] at h
  simp at h

theorem swf_succ_cons (k : Nat) (o : Outcome) (os : List Outcome) :
    startsWithFails (k + 1) (o :: os) ↔
      o = Outcome.failure ∧ startsWithFails k os := by
  constructor
  · rintro ⟨rest, h⟩
    rw [List.replicate_succ] at h
    simp only [List.cons_append, List.cons.injEq] at h
    exact ⟨h.1, rest, h.2⟩
  · rintro ⟨ho, rest, h⟩
    refine ⟨rest, ?_⟩
    subst ho
    rw [h, List.replicate_succ]
    rfl

theorem swf_mono {j k : Nat} (h : j ≤ k) {os : List Outcome} :
    startsWithFails k os → startsWithFails j os := by
  rintro ⟨rest, hh⟩
  refine ⟨List.replicate (k - j) Outcome.failure ++ rest, ?_⟩
  rw [hh, ← List.append_assoc, ← List.replicate_add, Nat.add_sub_cancel' h]

theorem hcf_of_swf {t : Nat} {os : List Outcome} :
    startsWithFails t os → hasConsecFails t os := by
  rintro ⟨rest, h⟩
  exact ⟨[], rest, by simpa using h⟩

theorem hcf_nil {t : Nat} (ht : 0 < t) : ¬ hasConsecFails t [] := by
  rintro ⟨pre, rest, h⟩
  have hlen := congrArg List.length h
  simp [List.length_append, List.length_replicate] at hlen
  omega

theorem hcf_cons (t : Nat) (o : Outcome) (os : List Outcome) :
    hasConsecFails t (o :: os) ↔
      startsWithFails t (o :: os) ∨ hasConsecFails t os := by
  constructor
  · rintro ⟨pre, rest, h⟩
    cases pre with
    | nil =>
      left
      exact ⟨rest, by simpa using h⟩
    | cons a pre =>
      right
      simp only [List.cons_append, List.cons.injEq] at h
      exact ⟨pre, rest, h.2⟩
  · rintro (⟨rest, h⟩ | ⟨pre, rest, h⟩)
    · exact ⟨[], rest, by simpa using h⟩
    · exact ⟨o :: pre, rest, by simp [h]⟩

/- An OPEN breaker whose last failure was stamped at time 0 absorbs every
call of a time 0 burst unchanged, given a positive cooldown. -/
theorem runAt0_open_fixed (os : List Outcome) (b : CircuitBreaker)
    (hb : b.state = CircuitState.OPEN) (hl : b.lastFailureTime = 0)
    (hr : 0 < b.retryTime) : runAt0 b os = b := by
  induction os with
  | nil => rfl
  | cons o os ih =>
    have he := execute_open_shortcircuit b 0 o hb (by omega)
    have hbr : (b.execute 0 o).breaker = b := by rw [he]
    show runAt0 ((b.execute 0 o).breaker) os = b
    rw [hbr]
    exact ih

/- Characterization of the time 0 burst from a CLOSED breaker that still
needs k consecutive failures to trip: it ends OPEN exactly when the burst
starts with those k failures or contains failureThreshold consecutive
failures somewhere later. -/
theorem closed_run_open_iff (fn : Nat) :
    ∀ (os : List Outcome) (b : CircuitBreaker) (k : Nat),
      b.state = CircuitState.CLOSED → 0 < b.retryTime →
      b.failureThreshold = (fn : Int) →
      1 ≤ k → k ≤ fn →
      b.failureCount = ((fn - k : Nat) : Int) →
      ((runAt0 b os).state = CircuitState.OPEN ↔
        (startsWithFails k os ∨ hasConsecFails fn os)) := by
  intro os
  induction os with
  | nil =>
    intro b k hb hr hf hk1 hkn hfc
    constructor
    · intro h
      rw [show runAt0 b [] = b from rfl, hb] at h
      simp at h
    · rintro (hs | hc)
      · obtain ⟨j, rfl⟩ : ∃ j, k = j + 1 := ⟨k - 1, by omega⟩
        exact absurd hs (swf_succ_nil _)
      · exact absurd hc (hcf_nil (by omega))
  | cons o os ih =>
    intro b k hb hr hf hk1 hkn hfc
    have hfn1 : 1 ≤ fn := le_trans hk1 hkn
    cases o with
    | success v =>
      have hstep : runAt0 b (Outcome.success v :: os) =
          runAt0 ((b.execute 0 (Outcome.success v)).breaker) os := rfl
      have hbr : (b.execute 0 (Outcome.success v)).breaker =
          { b with failureCount := 0 } := by
        rw [execute_closed_success b 0 v hb]
      have hiter := ih { b with failureCount := 0 } fn hb hr hf hfn1 le_rfl
        (by show (0 : Int) = ((fn - fn : Nat) : Int); simp)
      rw [hstep, hbr, hiter]
      constructor
      · rintro (hs | hc)
        · exact Or.inr ((hcf_cons fn _ os).2 (Or.inr (hcf_of_swf hs)))
        · exact Or.inr ((hcf_cons fn _ os).2 (Or.inr hc))
      · rintro (hs | hc)
        · obtain ⟨j, rfl⟩ : ∃ j, k = j + 1 := ⟨k - 1, by omega⟩
          rcases (swf_succ_cons j _ os).1 hs with ⟨ho, _⟩
          exact absurd ho (by simp)
        · rcases (hcf_cons fn _ os).1 hc with hs2 | hc2
          · obtain ⟨m, hm⟩ : ∃ m, fn = m + 1 := ⟨fn - 1, by omega⟩
            rw [hm] at hs2
            rcases (swf_succ_cons m _ os).1 hs2 with ⟨ho, _⟩
            exact absurd ho (by simp)
          · exact Or.inr hc2
    | failure =>
      have hstep : runAt0 b (Outcome.failure :: os) =
          runAt0 ((b.execute 0 Outcome.failure).breaker) os := rfl
      by_cases htrip : k = 1
      · subst htrip
        have ht : b.failureThreshold ≤ b.failureCount + 1 := by omega
        have hbr : (b.execute 0 Outcome.failure).breaker =
            { b with failureCount := b.failureCount + 1,
                     state := CircuitState.OPEN, lastFailureTime := 0 } := by
          rw [execute_closed_failure_trip b 0 hb ht]
        rw [hstep, hbr, runAt0_open_fixed os
          { b with failureCount := b.failureCount + 1,
                   state := CircuitState.OPEN, lastFailureTime := 0 }
          rfl rfl (by exact hr)]
        constructor
        · intro _
          exact Or.inl ((swf_succ_cons 0 _ os).2 ⟨rfl, swf_zero os⟩)
        · intro _
          rfl
      · obtain ⟨j, rfl⟩ : ∃ j, k = j + 1 := ⟨k - 1, by omega⟩
        have hj1 : 1 ≤ j := by omega
        have hnotrip : ¬ b.failureThreshold ≤ b.failureCount + 1 := by omega
        have hbr : (b.execute 0 Outcome.failure).breaker =
            { b with failureCount := b.failureCount + 1 } := by
          rw [execute_closed_failure_stay b 0 hb hnotrip]
        have hiter := ih { b with failureCount := b.failureCount + 1 } j hb hr hf
          hj1 (by omega)
          (by show b.failureCount + 1 = ((fn - j : Nat) : Int); omega)
        rw [hstep, hbr, hiter]
        constructor
        · rintro (hs | hc)
          · exact Or.inl ((swf_succ_cons j _ os).2 ⟨rfl, hs⟩)
          · exact Or.inr ((hcf_cons fn _ os).2 (Or.inr hc))
        · rintro (hs | hc)
          · exact Or.inl (((swf_succ_cons j _ os).1 hs).2)
          · rcases (hcf_cons fn _ os).1 hc with hs2 | hc2
            · obtain ⟨m, hm⟩ : ∃ m, fn = m + 1 := ⟨fn - 1, by omega⟩
              rw [hm] at hs2
              exact Or.inl (swf_mono (by omega) (((swf_succ_cons m _ os).1 hs2).2))
            · exact Or.inr hc2

/-- C1: a freshly constructed breaker with positive thresholds, fed a burst
of outcomes inside the cooldown window, ends OPEN exactly when the burst
contains failureThreshold consecutive failures with no intervening success;
and any successful execute call made in CLOSED state zeroes failureCount. -/
theorem claim_C1 (fn : Nat) (r s : Int) (hfn : 1 ≤ fn) (hr : 0 < r) :
    (∀ os : List Outcome,
      ((runAt0 (mkCircuitBreaker (fn : Int) r s 0) os).state =
          CircuitState.OPEN ↔ hasConsecFails fn os)) ∧
    (∀ (b : CircuitBreaker) (now : Int) (v : String),
      b.state = CircuitState.CLOSED →
      (b.execute now (Outcome.success v)).breaker.failureCount = 0) := by
  constructor
  · intro os
    have h := closed_run_open_iff fn os (mkCircuitBreaker (fn : Int) r s 0) fn
      rfl hr rfl hfn le_rfl
      (by show (0 : Int) = ((fn - fn : Nat) : Int); simp)
    rw [h]
    exact or_iff_right_of_imp hcf_of_swf
  · intro b now v hb
    rw [execute_closed_success b now v hb]

theorem claim_C1_witness :
    ((runAt0 (mkCircuitBreaker ((2 : Nat) : Int) 1 1 0)
        [Outcome.failure, Outcome.failure]).state = CircuitState.OPEN ↔
      hasConsecFails 2 [Outcome.failure, Outcome.failure]) ∧
    ((cbDemo0.execute 0 (Outcome.success "ok")).breaker.failureCount = 0) :=
  ⟨(claim_C1 2 1 1 (by decide) (by decide)).1 [Outcome.failure, Outcome.failure],
   (claim_C1 2 1 1 (by decide) (by decide)).2 cbDemo0 0 "ok" rfl⟩
